import Mathlib

/-!
Verification of the `liquid_notebooks` pelican plugin.

Text is modelled as `List Char`; a document is a list of lines
(`List (List Char)`).  Fallible code paths (uncaught Python exceptions)
are modelled with `Option` / `Except`.
-/

/-! ## Python string primitives -/

/-- Python's `\s` character class restricted to the ASCII whitespace
characters that the plugin's inputs can contain. -/
def isPySpace (c : Char) : Bool :=
  c = ' ' || c = '\t' || c = '\n' || c = '\r' || c = '\x0b' || c = '\x0c'

/-- Python `str.strip()`. -/
def pyStrip (l : List Char) : List Char :=
  ((l.dropWhile isPySpace).reverse.dropWhile isPySpace).reverse

/-- Python `'\n'.join(lines)`. -/
def joinNl : List (List Char) → List Char
  | [] => []
  | [l] => l
  | l :: l2 :: ls => l ++ '\n' :: joinNl (l2 :: ls)

/-- Python `page.split('\n')`: splits on every newline; the empty string
splits to `[""]`. -/
def splitNl : List Char → List (List Char)
  | [] => [[]]
  | c :: cs =>
    if c = '\n' then [] :: splitNl cs
    else
      match splitNl cs with
      | [] => [[c]]
      | l :: ls => (c :: l) :: ls

/-! ## Tag-syntax scanner (`LIQUID_TAG = re.compile(r'\{%.*?%\}', DOTALL)`)

The pattern is lexical and non-greedy: each match runs from an occurrence
of the two-character opener to the first closer after it, scanning left to
right.  `break2 a b s` finds the first occurrence of the two-character
sequence `a b` in `s`, returning the text before it and the text after it.
-/

def break2 (a b : Char) : List Char → Option (List Char × List Char)
  | [] => none
  | [_] => none
  | x :: y :: rest =>
    if x = a ∧ y = b then some ([], rest)
    else
      match break2 a b (y :: rest) with
      | some (p, q) => some (x :: p, q)
      | none => none

/-- One scanning pass: returns the literal segments around/between matches
(re.split) and the full matched spans (re.findall), delimiters included.
The fuel argument only forces termination; `scanLiquid` supplies enough
fuel that it is never exhausted (each match consumes at least four
characters). -/
def scanAux : Nat → List Char → List (List Char) × List (List Char)
  | 0, s => ([s], [])
  | fuel + 1, s =>
    match break2 '{' '%' s with
    | none => ([s], [])
    | some (pre, rest) =>
      match break2 '%' '}' rest with
      | none => ([s], [])
      | some (body, rest2) =>
        (pre :: (scanAux fuel rest2).1,
         ('{' :: '%' :: (body ++ ['%', '}'])) :: (scanAux fuel rest2).2)

/-- All `{% ... %}` spans of a page, with the literal segments around them. -/
def scanLiquid (s : List Char) : List (List Char) × List (List Char) :=
  scanAux s.length s

/-! ## Tag extraction (`EXTRACT_TAG = re.compile(r'(?:\s*)(\S+)(?:\s*)')`) -/

/-- `markup = markup[2:-2]`: strip the `{%` and `%}` delimiters. -/
def spanMarkup (span : List Char) : List Char :=
  let m := span.drop 2
  m.take (m.length - 2)

/-- `EXTRACT_TAG.match(markup)` followed by `EXTRACT_TAG.sub('', markup, 1)`:
returns the first whitespace-delimited token and the remainder of the text
after the match (the match also consumes the whitespace run following the
token).  `none` models the `AttributeError` path: `match` returns `None`
exactly when the text contains no non-whitespace character. -/
def extractTag (markup : List Char) : Option (List Char × List Char) :=
  let afterWs := markup.dropWhile isPySpace
  if afterWs.isEmpty then none
  else
    some (afterWs.takeWhile (fun c => !isPySpace c),
          (afterWs.dropWhile (fun c => !isPySpace c)).dropWhile isPySpace)

/-! ## Tag registry (`_LiquidTagsPreprocessor._tags`)

The process-wide dict is modelled as an association list in which the most
recent binding for a name shadows older ones, matching dict assignment as
observed through lookup and membership. -/

def LTRegistry : Type :=
  List (List Char × (List Char → List Char → List Char))

/-- Dict lookup `_tags[tag]` / `tag in _tags` (first, i.e. newest, binding). -/
def lookupTag (tags : LTRegistry) (t : List Char) :
    Option (List Char → List Char → List Char) :=
  match tags with
  | [] => none
  | (k, f) :: rest => if k = t then some f else lookupTag rest t

/-- Python `tag in self._tags`. -/
def containsTag (tags : LTRegistry) (t : List Char) : Bool :=
  (lookupTag tags t).isSome

/-- `LiquidTags.register(tag)` applied to a handler: stores the handler
under the name and reports (as the Bool) whether a `warnings.warn` about
overriding an existing tag was emitted.  The warning is non-fatal: the
function always returns the updated registry. -/
def LiquidTags.register (tag : List Char)
    (handler : List Char → List Char → List Char) (tags : LTRegistry) :
    LTRegistry × Bool :=
  ((tag, handler) :: tags, containsTag tags tag)

/-! ## The preprocessor (`_LiquidTagsPreprocessor.run`) -/

/-- Left-to-right effectful map over `Option`, modelling the `for` loop
that stops with an uncaught exception at the first failing element. -/
def mapOption (f : α → Option β) : List α → Option (List β)
  | [] => some []
  | a :: as =>
    match f a, mapOption f as with
    | some b, some bs => some (b :: bs)
    | _, _ => none

/-- One iteration of the loop body for a matched span: extract the tag
name (crashing — `none` — when the body has no token, as
`EXTRACT_TAG.match` returns `None`), then replace the span with the
handler's value when the tag is registered, else keep the literal span. -/
def processSpan (tags : LTRegistry) (span : List Char) : Option (List Char) :=
  match extractTag (spanMarkup span) with
  | none => none
  | some (tag, rest) =>
    match lookupTag tags tag with
    | some f => some (f tag (pyStrip rest))
    | none => some span

/-- `zip(LIQUID_TAG.split(page), liquid_tags)` flattened by
`itertools.chain` and joined: alternate segments and replacements,
truncating at the shorter list as `zip` does. -/
def interleave : List (List Char) → List (List Char) → List Char
  | [], _ => []
  | _, [] => []
  | s :: ss, r :: rs => s ++ r ++ interleave ss rs

/-- `_LiquidTagsPreprocessor.run(lines)`: join the lines, scan for
`{% ... %}` spans, replace each registered span by its handler's value,
reassemble, and re-split on newlines.  `none` models the uncaught
`AttributeError` raised when a span's body contains no token. -/
def run (tags : LTRegistry) (lines : List (List Char)) :
    Option (List (List Char)) :=
  let page := joinNl lines
  match mapOption (processSpan tags) (scanLiquid page).2 with
  | none => none
  | some reps => some (splitNl (interleave (scanLiquid page).1 (reps ++ [[]])))

/-- The reassembly rule as the spec words it: `segment0 + replacement0 +
segment1 + replacement1 + ... + segmentN`, for `N+1` segments and `N`
replacements. -/
def specReassemble : List (List Char) → List (List Char) → List Char
  | s :: ss, r :: rs => s ++ r ++ specReassemble ss rs
  | s :: _, [] => s
  | [], _ => []

/-- The replacement for one span as the spec words it: the handler's
return value when the tag name resolves, otherwise the span's literal
text. -/
def specReplacement (tags : LTRegistry) (span : List Char) : List Char :=
  match extractTag (spanMarkup span) with
  | none => span
  | some (tag, rest) =>
    match lookupTag tags tag with
    | some f => f tag (pyStrip rest)
    | none => span

/-! ## Extension adapter (`liquid_tags.addLiquidTags`) -/

/-- An element of a markdown extensions list as Python equality sees it:
the `LiquidTags` class object itself, an instantiated `LiquidTags(configs)`
extension (instances compare by identity, so a freshly constructed
instance equals nothing already in the list), or anything else. -/
inductive MdExt : Type
  | liquidTagsClass : MdExt
  | liquidTagsInstance : List (String × String) → MdExt
  | other : String → MdExt
deriving DecidableEq

/-- Python `element == LiquidTags` (the class object): true only for the
class object itself; `LiquidTags(configs)` instances are never equal to
the class. -/
def isLiquidTagsClass : MdExt → Bool
  | .liquidTagsClass => true
  | _ => false

/-- The parts of `gen.settings` that `addLiquidTags` reads and writes:
the `'MARKDOWN'` dict (outer `Option`) and its `'extensions'` key (inner
`Option`, since `setdefault` creates it), the deprecated `'MD_EXTENSIONS'`
list, and the `NOTEBOOK_DIR` setting consulted for the config merge. -/
structure GenSettings where
  markdown : Option (Option (List MdExt))
  mdExtensions : Option (List MdExt)
  notebookDir : Option String
deriving DecidableEq

/-- `LT_CONFIG` from `mdx_liquid_tags`. -/
def LT_CONFIG : List (String × String) := [("NOTEBOOK_DIR", "notebooks")]

/-- `configs = LT_CONFIG.copy()` overridden by any setting whose key is in
`LT_CONFIG` (only `NOTEBOOK_DIR`). -/
def mkConfigs (s : GenSettings) : List (String × String) :=
  [("NOTEBOOK_DIR", s.notebookDir.getD "notebooks")]

/-- The shared body of `addLiquidTags`: append `LiquidTags(configs)` unless
the membership test `LiquidTags not in ext_list` fails, i.e. unless the
class object itself is an element. -/
def installLT (s : GenSettings) (extList : List MdExt) : List MdExt :=
  if extList.any isLiquidTagsClass then extList
  else extList ++ [MdExt.liquidTagsInstance (mkConfigs s)]

/-- `liquid_tags.addLiquidTags(gen)`: pick the extensions list from
`MARKDOWN` (creating the `extensions` key if needed), else from
`MD_EXTENSIONS`, else create `MARKDOWN` fresh; then install. -/
def addLiquidTags (s : GenSettings) : GenSettings :=
  match s.markdown with
  | some extOpt =>
    { s with markdown := some (some (installLT s (extOpt.getD []))) }
  | none =>
    match s.mdExtensions with
    | some extList =>
      { s with mdExtensions := some (installLT s extList) }
    | none =>
      { s with markdown := some (some (installLT s [])) }

/-- The extensions list a later markdown render would see. -/
def extListOf (s : GenSettings) : List MdExt :=
  match s.markdown with
  | some extOpt => extOpt.getD []
  | none => s.mdExtensions.getD []

/-- How many entries of the list are the LiquidTags extension (the class
object or an instance). -/
def countLiquidTags (l : List MdExt) : Nat :=
  l.countP fun e =>
    match e with
    | .liquidTagsClass => true
    | .liquidTagsInstance _ => true
    | .other _ => false

/-! ## Notebook tag handler (`notebook.py`) -/

/-- One character of the `language` group's class `[a-z0-9\+\-]`. -/
def isLangChar (c : Char) : Bool :=
  ('a' ≤ c && c ≤ 'z') || c.isDigit || c = '+' || c = '-'

/-- Strip a literal from the front of the text, or fail. -/
def dropLit (lit s : List Char) : Option (List Char) :=
  if lit.isPrefixOf s then some (s.drop lit.length) else none

/-- Match the group `-?[0-9]*`: an optional sign followed by the maximal
digit run; returns the group text and the remaining input. -/
def takeIntGroup : List Char → List Char × List Char
  | '-' :: rest => ('-' :: rest.takeWhile Char.isDigit, rest.dropWhile Char.isDigit)
  | s => (s.takeWhile Char.isDigit, s.dropWhile Char.isDigit)

/-- Try the optional clause `(cells\[)(-?[0-9]*):(-?[0-9]*)(\])` at the
front of the input.  On success return the `start`/`end` group texts and
the remainder; otherwise the clause is absent and the input is returned
unconsumed (the interior alternatives are disjoint from what may legally
follow, so this deterministic attempt agrees with the regex engine's
backtracking). -/
def tryCells (s : List Char) :
    Option (List Char × List Char) × List Char :=
  match dropLit ['c', 'e', 'l', 'l', 's', '['] s with
  | none => (none, s)
  | some r1 =>
    match takeIntGroup r1 with
    | (g1, ':' :: r3) =>
      match takeIntGroup r3 with
      | (g2, ']' :: r5) => (some (g1, g2), r5)
      | _ => (none, s)
    | _ => (none, s)

/-- Try the optional clause `(language\[)(-?[a-z0-9\+\-]*)(\])`.  Since the
class already contains `-`, the group text is the maximal run of class
characters. -/
def tryLanguage (s : List Char) : Option (List Char) × List Char :=
  match dropLit ['l', 'a', 'n', 'g', 'u', 'a', 'g', 'e', '['] s with
  | none => (none, s)
  | some r1 =>
    match r1.dropWhile isLangChar with
    | ']' :: r3 => (some (r1.takeWhile isLangChar), r3)
    | _ => (none, s)

/-- The named groups of a successful `FORMAT.search(markup)`. An absent
optional clause leaves its groups as `none` (Python `None`); a present
clause can still carry an empty group text. -/
structure FormatGroups where
  src : List Char
  cellsStart : Option (List Char)
  cellsEnd : Option (List Char)
  language : Option (List Char)
deriving DecidableEq

/-- `FORMAT.search(markup)` for the anchored pattern
`^(\s+)?(?P<src>\S+)(\s+)?((cells\[)(?P<start>-?[0-9]*):(?P<end>-?[0-9]*)(\]))?(\s+)?((language\[)(?P<language>-?[a-z0-9\+\-]*)(\]))?(\s+)?$`.
The pattern's pieces are pairwise disjoint (whitespace vs. literals vs.
digit groups), so the greedy left-to-right reading below matches the regex
engine's result. -/
def parseFormat (s : List Char) : Option FormatGroups :=
  let s1 := s.dropWhile isPySpace
  let src := s1.takeWhile (fun c => !isPySpace c)
  if src.isEmpty then none
  else
    let s2 := (s1.drop src.length).dropWhile isPySpace
    let (cellsG, s3) := tryCells s2
    let (langG, s5) := tryLanguage (s3.dropWhile isPySpace)
    if (s5.dropWhile isPySpace).isEmpty then
      some ⟨src, cellsG.map Prod.fst, cellsG.map Prod.snd, langG⟩
    else none

/-- Python `int()` on a `-?[0-9]*` group text: fails (`ValueError`) when no
digits are present. -/
def pyIntOpt : List Char → Option Int
  | '-' :: ds =>
    if ds ≠ [] && ds.all Char.isDigit then
      some (-(ds.foldl (fun n c => 10 * n + Int.ofNat (c.toNat - 48)) (0 : Int)))
    else none
  | ds =>
    if ds ≠ [] && ds.all Char.isDigit then
      some (ds.foldl (fun n c => 10 * n + Int.ofNat (c.toNat - 48)) (0 : Int))
    else none

/-- The errors the handler can raise before/while producing output. -/
inductive NbError : Type
  | malformedSyntax : List Char → NbError
  | badInt : NbError
  | sourceMissing : List Char → NbError
  | cssFailed : NbError
deriving DecidableEq

/-- The module-level usage constant interpolated into the malformed-syntax
error message. -/
def expectedUsage : List Char :=
  "\x7b% notebook /path/to/notebook.ipynb [ cells[start:end] ] [ language[language] ] %\x7d".data

/-- The `ValueError` message raised on a failed `FORMAT.search`. -/
def usageErrMsg : List Char :=
  "Error processing input, expected syntax: ".data ++ expectedUsage

/-- `if start: start = int(start) else: start = 0` — both an absent clause
(`None`) and an empty group text are falsy. -/
def pyStartVal : Option (List Char) → Except NbError Int
  | none => .ok 0
  | some [] => .ok 0
  | some s =>
    match pyIntOpt s with
    | some i => .ok i
    | none => .error .badInt

/-- `if end: end = int(end) else: end = None`. -/
def pyEndVal : Option (List Char) → Except NbError (Option Int)
  | none => .ok none
  | some [] => .ok none
  | some s =>
    match pyIntOpt s with
    | some i => .ok (some i)
    | none => .error .badInt

/-- The argument-parsing head of the `notebook` handler (source lines
97-116): regex match, then the start/end defaulting. -/
def notebookArgs (markup : List Char) :
    Except NbError (List Char × Int × Option Int × Option (List Char)) :=
  match parseFormat markup with
  | none => .error (.malformedSyntax usageErrMsg)
  | some g =>
    match pyStartVal g.cellsStart, pyEndVal g.cellsEnd with
    | .ok st, .ok en => .ok (g.src, st, en, g.language)
    | .error e, _ => .error e
    | .ok _, .error e => .error e

/-- The argument vectors of the two `lessc` invocations. -/
def lessArgsFull : List String := ["lessc", "-", "--clean-css"]

/-- The reduced argument vector used for the retry. -/
def lessArgsShort : List String := ["lessc", "-"]

/-- The two-attempt subprocess policy (source lines 161-166): run
`lessc - --clean-css`; when its exit code is non-zero run `lessc -`
instead.  Returns the list of argument vectors actually invoked and the
last attempt's `(returncode, stdout)`.  The `lessc` argument is the
subprocess collaborator: argument vector and stdin to exit code and
stdout. -/
def compileLess (lessc : List String → List Char → Int × List Char)
    (input : List Char) : List (List String) × (Int × List Char) :=
  let p1 := lessc lessArgsFull input
  if p1.1 ≠ 0 then ([lessArgsFull, lessArgsShort], lessc lessArgsShort input)
  else ([lessArgsFull], p1)

/-- The CSS-compilation step including its failure check (source lines
167-169): fail exactly when the last attempt exited non-zero or produced
empty stdout. -/
def cssCompile (lessc : List String → List Char → Int × List Char)
    (input : List Char) : Except Unit (List Char) :=
  let p := (compileLess lessc input).2
  if p.1 ≠ 0 ∨ p.2 = [] then .error () else .ok p.2

/-- `WRAPPER_ID`. -/
def WRAPPER_ID : List Char := "nb-wrapper".data

/-- `CSS_WRAPPER.format(stdout)`. -/
def cssWrapperFmt (css : List Char) : List Char :=
  "\n<style type=\"text/css\">\n".data ++ css ++ "\n</style>\n".data

/-- The handler's external collaborators: filesystem existence check, the
notebook renderer (path, cell range and language to HTML body plus CSS
fragments), the `lessc` subprocess, the markdown `htmlStash`, and the two
payloads read from data files at import time. -/
structure NbCollab where
  pathExists : List Char → Bool
  render : List Char → Int → Option Int → Option (List Char) →
    List Char × List (List Char)
  lessc : List String → List Char → Int × List Char
  stash : List Char → List Char
  cssInclude : List Char
  jsInclude : List Char

/-- The `notebook` handler (source lines 96-177): parse the arguments,
resolve and check the notebook path, render, scope the CSS through
`lessc`, and stash the assembled fragment. -/
def notebook (collab : NbCollab) (nbDir : List Char) (markup : List Char) :
    Except NbError (List Char) :=
  match notebookArgs markup with
  | .error e => .error e
  | .ok (src, start, stop, language) =>
    let nbPath := "content/".data ++ nbDir ++ "/".data ++ src
    if collab.pathExists nbPath then
      let rendered := collab.render nbPath start stop language
      let resourceCss := joinNl (rendered.2 ++ [collab.cssInclude])
      let cssAsLess :=
        "div#".data ++ WRAPPER_ID ++ " \x7b ".data ++ resourceCss ++ " \x7d".data
      match cssCompile collab.lessc cssAsLess with
      | .error _ => .error .cssFailed
      | .ok compiled =>
        .ok (collab.stash (joinNl [cssWrapperFmt compiled, rendered.1,
                                   collab.jsInclude]))
    else .error (.sourceMissing nbPath)

/-! ## `SubCell.preprocess`

Python objects are mutable and aliased; to state the frame property the
notebook objects live in an explicit store (a heap of cell lists) and are
referred to by index.  `deepcopy` allocates a fresh entry; the slice
assignment mutates only the fresh entry. -/

/-- A heap of notebook objects, each represented by its list of cells. -/
abbrev Store (α : Type) : Type := List (List α)

/-- One slice bound as Python computes it: negative indices count from the
end, then the result is clamped to `[0, n]`. -/
def pyBound (n : Nat) (i : Int) : Nat :=
  (if i < 0 then max (i + Int.ofNat n) 0 else min i (Int.ofNat n)).toNat

/-- Python `l[start:end]` with optional (possibly negative) bounds. -/
def pySlice (start stop : Option Int) (l : List α) : List α :=
  let n := l.length
  let s := match start with | none => 0 | some i => pyBound n i
  let e := match stop with | none => n | some i => pyBound n i
  (l.take e).drop s

/-- `copy.deepcopy(nb)`: allocate a structurally equal, unaliased object. -/
def deepcopy (st : Store α) (r : Nat) : Store α × Nat :=
  (st ++ [st.getD r []], st.length)

/-- `SubCell.preprocess(self, nb, resources)`: deep-copy the notebook,
restrict the copy's cells to the `[start:end]` slice, and return the copy
together with the untouched resources. -/
def SubCell.preprocess (start stop : Option Int) (st : Store α) (nb : Nat)
    (resources : ρ) : (Store α × Nat) × ρ :=
  let copied := deepcopy st nb
  ((copied.1.set copied.2 (pySlice start stop (copied.1.getD copied.2 [])),
    copied.2), resources)

/-! ## Concrete sample data used by the witness theorems -/

/-- A handler returning the fixed string `R`. -/
def handlerR : List Char → List Char → List Char := fun _ _ => "R".data

/-- A handler returning the fixed string `A`. -/
def handlerA : List Char → List Char → List Char := fun _ _ => "A".data

/-- A handler returning the fixed string `B`. -/
def handlerB : List Char → List Char → List Char := fun _ _ => "B".data

/-- A registry with the single tag `t`. -/
def sampleRegistry : LTRegistry := [("t".data, handlerR)]

/-- One line holding one registered-tag span. -/
def sampleLines : List (List Char) := ["A\x7b% t x %\x7dB".data]

/-- One line holding one span whose tag `foo` is unregistered. -/
def unregLines : List (List Char) := ["A\x7b% foo x %\x7dB".data]

/-- A `lessc` collaborator whose first invocation form fails and whose
retry form succeeds with output. -/
def lessc0 : List String → List Char → Int × List Char :=
  fun args _ => if args = lessArgsFull then (1, []) else (0, "CSS".data)

/-- A sample collaborator bundle. -/
def collabA : NbCollab :=
  ⟨fun _ => true, fun _ _ _ _ => ("BODY".data, []),
   fun _ _ => (0, "CSS".data), fun x => x, [], []⟩

/-- A second, observably different collaborator bundle. -/
def collabB : NbCollab :=
  ⟨fun _ => false, fun _ _ _ _ => ([], []),
   fun _ _ => (1, []), fun _ => [], "i".data, "j".data⟩

/-! ## Scanner lemmas -/

theorem break2_eq (a b : Char) :
    ∀ s p q : List Char, break2 a b s = some (p, q) → s = p ++ a :: b :: q := by
  intro s
  induction s with
  | nil => intro p q h; simp [break2] at h
  | cons x t ih =>
    intro p q h
    cases t with
    | nil => simp [break2] at h
    | cons y rest =>
      simp only [break2] at h
      split at h
      · rename_i hab
        simp only [Option.some.injEq, Prod.mk.injEq] at h
        obtain ⟨hp, hq⟩ := h
        subst hp; subst hq
        obtain ⟨ha, hb⟩ := hab
        subst ha; subst hb
        simp
      · cases hb2 : break2 a b (y :: rest) with
        | none => rw [hb2] at h; simp at h
        | some pq =>
          obtain ⟨p2, q2⟩ := pq
          rw [hb2] at h
          simp only [Option.some.injEq, Prod.mk.injEq] at h
          obtain ⟨hp, hq⟩ := h
          subst hp; subst hq
          simpa using ih p2 q2 hb2

theorem scanAux_interleave :
    ∀ (fuel : Nat) (s : List Char),
      interleave (scanAux fuel s).1 ((scanAux fuel s).2 ++ [[]]) = s := by
  intro fuel
  induction fuel with
  | zero => intro s; simp [scanAux, interleave]
  | succ n ih =>
    intro s
    rcases h1 : break2 '{' '%' s with _ | ⟨pre, rest⟩
    · simp [scanAux, h1, interleave]
    · rcases h2 : break2 '%' '}' rest with _ | ⟨body, rest2⟩
      · simp [scanAux, h1, h2, interleave]
      · have e1 := break2_eq '{' '%' s pre rest h1
        have e2 := break2_eq '%' '}' rest body rest2 h2
        simp only [scanAux, h1, h2, interleave, List.cons_append]
        rw [ih rest2]
        subst e1
        subst e2
        simp

theorem scanAux_segs_length :
    ∀ (fuel : Nat) (s : List Char),
      (scanAux fuel s).1.length = (scanAux fuel s).2.length + 1 := by
  intro fuel
  induction fuel with
  | zero => intro s; simp [scanAux]
  | succ n ih =>
    intro s
    rcases h1 : break2 '{' '%' s with _ | ⟨pre, rest⟩
    · simp [scanAux, h1]
    · rcases h2 : break2 '%' '}' rest with _ | ⟨body, rest2⟩
      · simp [scanAux, h1, h2]
      · simp [scanAux, h1, h2, ih rest2]

theorem scanAux_spans_nil (fuel : Nat) (s : List Char)
    (h : (scanAux fuel s).2 = []) : (scanAux fuel s).1 = [s] := by
  cases fuel with
  | zero => simp [scanAux]
  | succ n =>
    rcases h1 : break2 '{' '%' s with _ | ⟨pre, rest⟩
    · simp [scanAux, h1]
    · rcases h2 : break2 '%' '}' rest with _ | ⟨body, rest2⟩
      · simp [scanAux, h1, h2]
      · simp [scanAux, h1, h2] at h

theorem scanLiquid_interleave (s : List Char) :
    interleave (scanLiquid s).1 ((scanLiquid s).2 ++ [[]]) = s :=
  scanAux_interleave s.length s

theorem scanLiquid_segs_length (s : List Char) :
    (scanLiquid s).1.length = (scanLiquid s).2.length + 1 :=
  scanAux_segs_length s.length s

theorem scanLiquid_spans_nil {s : List Char} (h : (scanLiquid s).2 = []) :
    (scanLiquid s).1 = [s] :=
  scanAux_spans_nil s.length s h

/-! ## Line splitting / joining lemmas -/

theorem splitNl_no_newline : ∀ (l : List Char), '\n' ∉ l → splitNl l = [l] := by
  intro l
  induction l with
  | nil => intro _; rfl
  | cons c cs ih =>
    intro h
    have hc : ¬c = '\n' := by
      intro e; subst e; exact h (List.mem_cons_self _ _)
    have hcs : '\n' ∉ cs := fun m => h (List.mem_cons_of_mem c m)
    simp [splitNl, hc, ih hcs]

theorem splitNl_append (l t h0 : List Char) (tl : List (List Char))
    (hl : '\n' ∉ l) (ht : splitNl t = h0 :: tl) :
    splitNl (l ++ t) = (l ++ h0) :: tl := by
  induction l with
  | nil => simpa using ht
  | cons c cs ih =>
    have hc : ¬c = '\n' := by
      intro e; subst e; exact hl (List.mem_cons_self _ _)
    have hcs : '\n' ∉ cs := fun m => hl (List.mem_cons_of_mem c m)
    simp only [List.cons_append, splitNl, hc, if_false, List.append_eq]
    rw [ih hcs]

theorem splitNl_joinNl :
    ∀ (lines : List (List Char)), lines ≠ [] → (∀ l ∈ lines, '\n' ∉ l) →
      splitNl (joinNl lines) = lines := by
  intro lines
  induction lines with
  | nil => intro h _; exact absurd rfl h
  | cons l ls ih =>
    intro _ hmem
    cases ls with
    | nil => simpa [joinNl] using splitNl_no_newline l (hmem l (by simp))
    | cons l2 ls2 =>
      have hrec := ih (by simp) fun x hx => hmem x (List.mem_cons_of_mem l hx)
      have hsplit : splitNl ('\n' :: joinNl (l2 :: ls2)) = [] :: l2 :: ls2 := by
        simp [splitNl, hrec]
      rw [joinNl, splitNl_append l ('\n' :: joinNl (l2 :: ls2)) [] (l2 :: ls2)
            (hmem l (by simp)) hsplit]
      simp

/-! ## `mapOption` lemmas -/

theorem mapOption_eq_some_iff (f : α → Option β) :
    ∀ l : List α,
      (∃ bs, mapOption f l = some bs) ↔ ∀ a ∈ l, (f a).isSome = true := by
  intro l
  induction l with
  | nil => simp [mapOption]
  | cons a as ih =>
    constructor
    · rintro ⟨bs, h⟩
      simp only [mapOption] at h
      cases hfa : f a with
      | none => rw [hfa] at h; simp at h
      | some b =>
        rw [hfa] at h
        cases hm : mapOption f as with
        | none => rw [hm] at h; simp at h
        | some bs2 =>
          intro x hx
          rcases List.mem_cons.mp hx with hx1 | hx2
          · subst hx1; simp [hfa]
          · exact (ih.mp ⟨bs2, hm⟩) x hx2
    · intro h
      have ha := h a (List.mem_cons_self _ _)
      obtain ⟨b, hfa⟩ := Option.isSome_iff_exists.mp ha
      obtain ⟨bs, hm⟩ := ih.mpr fun x hx => h x (List.mem_cons_of_mem a hx)
      exact ⟨b :: bs, by simp [mapOption, hfa, hm]⟩

theorem mapOption_congr_some (f : α → Option β) (g : α → β) :
    ∀ l : List α, (∀ a ∈ l, f a = some (g a)) → mapOption f l = some (l.map g) := by
  intro l
  induction l with
  | nil => intro _; rfl
  | cons a as ih =>
    intro h
    simp only [mapOption, List.map]
    rw [h a (List.mem_cons_self _ _), ih fun x hx => h x (List.mem_cons_of_mem a hx)]

/-! ## `processSpan` lemmas -/

theorem processSpan_isSome (tags : LTRegistry) (span : List Char) :
    (processSpan tags span).isSome = (extractTag (spanMarkup span)).isSome := by
  cases hx : extractTag (spanMarkup span) with
  | none => simp [processSpan, hx]
  | some p =>
    obtain ⟨tag, rest⟩ := p
    cases hl : lookupTag tags tag <;> simp [processSpan, hx, hl]

theorem processSpan_eq_some_spec (tags : LTRegistry) (span : List Char)
    (h : (extractTag (spanMarkup span)).isSome = true) :
    processSpan tags span = some (specReplacement tags span) := by
  cases hx : extractTag (spanMarkup span) with
  | none => rw [hx] at h; simp at h
  | some p =>
    obtain ⟨tag, rest⟩ := p
    cases hl : lookupTag tags tag <;> simp [processSpan, specReplacement, hx, hl]

theorem interleave_eq_specReassemble :
    ∀ (reps segs : List (List Char)), segs.length = reps.length + 1 →
      interleave segs (reps ++ [[]]) = specReassemble segs reps := by
  intro reps
  induction reps with
  | nil =>
    intro segs h
    cases segs with
    | nil => simp at h
    | cons s ss =>
      cases ss with
      | nil => simp [interleave, specReassemble]
      | cons s2 ss2 => simp at h
  | cons r rs ih =>
    intro segs h
    cases segs with
    | nil => simp at h
    | cons s ss =>
      simp only [List.cons_append, interleave, specReassemble, List.append_eq]
      rw [ih ss (by simpa using h)]

/-! ## Claim theorems -/

/-- C1: installing the extension adapter is NOT idempotent.  On a generator
whose settings carry neither `MARKDOWN` nor `MD_EXTENSIONS`, the first
`addLiquidTags` call appends one `LiquidTags` instance; the second call's
membership test `LiquidTags not in ext_list` compares elements against the
class object, which is never an element, so a second instance is appended:
the extensions list then contains two LiquidTags entries, contradicting
the claimed "at most one after any number of calls". -/
theorem addLiquidTags_appends_duplicate :
    countLiquidTags (extListOf (addLiquidTags (addLiquidTags
      ⟨none, none, none⟩))) = 2 ∧
    countLiquidTags (extListOf (addLiquidTags ⟨none, none, none⟩)) = 1 := by
  constructor <;> rfl

/-- C2 (counterexample): on the single line `{%%}` — one scanned span whose
body has no token — `run` does not terminate normally with the span left
unexpanded; it fails (the modelled `AttributeError` from
`EXTRACT_TAG.match(markup).groups()`). -/
theorem run_fails_on_tokenless_span :
    run [] ["\x7b%%\x7d".data] = none := rfl

/-- C2 (amended): `run` terminates normally exactly when every scanned tag
span's body contains at least one non-whitespace token; a span with no
token makes the whole run fail rather than being left unexpanded. -/
theorem run_ok_iff_spans_tokened (tags : LTRegistry) (lines : List (List Char)) :
    (∃ out, run tags lines = some out) ↔
      ∀ span ∈ (scanLiquid (joinNl lines)).2,
        (extractTag (spanMarkup span)).isSome = true := by
  constructor
  · rintro ⟨out, hout⟩ span hs
    rw [← processSpan_isSome]
    simp only [run] at hout
    cases hm : mapOption (processSpan tags) (scanLiquid (joinNl lines)).2 with
    | none => rw [hm] at hout; simp at hout
    | some reps => exact (mapOption_eq_some_iff _ _).mp ⟨reps, hm⟩ span hs
  · intro h
    have hall : ∀ span ∈ (scanLiquid (joinNl lines)).2,
        (processSpan tags span).isSome = true := by
      intro span hs
      rw [processSpan_isSome]
      exact h span hs
    obtain ⟨reps, hm⟩ := (mapOption_eq_some_iff _ _).mpr hall
    exact ⟨splitNl (interleave (scanLiquid (joinNl lines)).1 (reps ++ [[]])),
      by simp only [run]; rw [hm]⟩

/-- C3: when the joined page contains zero `{% ... %}` tag spans, `run`
returns the input line sequence unchanged.  The hypotheses `lines ≠ []`
and newline-freeness characterise genuine line sequences (the image of
splitting a text on newlines), which is what the host pipeline supplies. -/
theorem run_identity_no_spans (tags : LTRegistry) (lines : List (List Char))
    (hne : lines ≠ []) (hnl : ∀ l ∈ lines, '\n' ∉ l)
    (hz : (scanLiquid (joinNl lines)).2 = []) :
    run tags lines = some lines := by
  simp only [run]
  rw [hz, scanLiquid_spans_nil hz]
  simp only [mapOption, interleave, List.nil_append, List.append_nil]
  rw [splitNl_joinNl lines hne hnl]

/-- C3 witness. -/
theorem run_identity_no_spans_witness :
    ((["hello world".data, "second line".data] : List (List Char)) ≠ [] ∧
      (∀ l ∈ (["hello world".data, "second line".data] : List (List Char)),
        '\n' ∉ l) ∧
      (scanLiquid (joinNl ["hello world".data, "second line".data])).2 = []) ∧
    run [] ["hello world".data, "second line".data] =
      some ["hello world".data, "second line".data] :=
  ⟨⟨by decide, by decide, by decide⟩,
    run_identity_no_spans [] _ (by decide) (by decide) (by decide)⟩

/-- C4: a span whose extracted tag name is unregistered is kept
byte-for-byte (first conjunct), and on an input all of whose spans carry
unregistered tag names `run` returns the input exactly (second conjunct). -/
theorem run_unregistered_left_unchanged (tags : LTRegistry)
    (lines : List (List Char)) (hne : lines ≠ [])
    (hnl : ∀ l ∈ lines, '\n' ∉ l)
    (hu : ∀ span ∈ (scanLiquid (joinNl lines)).2, ∃ tag rest,
      extractTag (spanMarkup span) = some (tag, rest) ∧
        lookupTag tags tag = none) :
    (∀ span tag rest, extractTag (spanMarkup span) = some (tag, rest) →
      lookupTag tags tag = none → processSpan tags span = some span)
    ∧ run tags lines = some lines := by
  constructor
  · intro span tag rest hx hl
    simp [processSpan, hx, hl]
  · have hmap : mapOption (processSpan tags) (scanLiquid (joinNl lines)).2
        = some ((scanLiquid (joinNl lines)).2.map id) := by
      apply mapOption_congr_some
      intro span hs
      obtain ⟨tag, rest, hx, hl⟩ := hu span hs
      simp [processSpan, hx, hl]
    simp only [run, hmap]
    rw [List.map_id, scanLiquid_interleave (joinNl lines),
      splitNl_joinNl lines hne hnl]

/-- C4 witness. -/
theorem run_unregistered_witness :
    (unregLines ≠ [] ∧ (∀ l ∈ unregLines, '\n' ∉ l) ∧
      (∀ span ∈ (scanLiquid (joinNl unregLines)).2, ∃ tag rest,
        extractTag (spanMarkup span) = some (tag, rest) ∧
          lookupTag ([] : LTRegistry) tag = none)) ∧
    run [] unregLines = some unregLines :=
  ⟨⟨by decide, by decide, by
      intro span hs
      have hs2 : span ∈ (["\x7b% foo x %\x7d".data] : List (List Char)) := hs
      obtain rfl := List.mem_singleton.mp hs2
      exact ⟨"foo".data, "x ".data, by decide, rfl⟩⟩,
    (run_unregistered_left_unchanged [] unregLines (by decide) (by decide)
      (by
        intro span hs
        have hs2 : span ∈ (["\x7b% foo x %\x7d".data] : List (List Char)) := hs
        obtain rfl := List.mem_singleton.mp hs2
        exact ⟨"foo".data, "x ".data, by decide, rfl⟩)).2⟩

/-- C5: `run` produces exactly the spec's alternating reassembly — the
literal segments in left-to-right order interleaved with each span's
replacement (handler value for registered names, the literal span
otherwise), with no extra characters — whenever every span's body carries
a token (otherwise `run` fails, see the C2 theorems). -/
theorem run_matches_spec_reassembly (tags : LTRegistry)
    (lines : List (List Char))
    (hx : ∀ span ∈ (scanLiquid (joinNl lines)).2,
      (extractTag (spanMarkup span)).isSome = true) :
    run tags lines = some (splitNl (specReassemble
      (scanLiquid (joinNl lines)).1
      ((scanLiquid (joinNl lines)).2.map (specReplacement tags)))) := by
  have hmap : mapOption (processSpan tags) (scanLiquid (joinNl lines)).2
      = some ((scanLiquid (joinNl lines)).2.map (specReplacement tags)) :=
    mapOption_congr_some _ _ _ fun span hs =>
      processSpan_eq_some_spec tags span (hx span hs)
  simp only [run, hmap]
  rw [interleave_eq_specReassemble _ _
    (by rw [List.length_map]; exact scanLiquid_segs_length _)]

/-- C5 witness. -/
theorem run_matches_spec_reassembly_witness :
    (∀ span ∈ (scanLiquid (joinNl sampleLines)).2,
      (extractTag (spanMarkup span)).isSome = true) ∧
    run sampleRegistry sampleLines = some (splitNl (specReassemble
      (scanLiquid (joinNl sampleLines)).1
      ((scanLiquid (joinNl sampleLines)).2.map
        (specReplacement sampleRegistry)))) :=
  ⟨by decide, run_matches_spec_reassembly sampleRegistry sampleLines (by decide)⟩

/-- C6: registering a handler for an already-registered tag name emits the
override warning (a non-fatal effect; `register` always returns the
updated registry) and the new handler shadows the old one: resolution
afterwards yields the most recently registered handler. -/
theorem register_warns_and_overwrites (tags : LTRegistry) (t : List Char)
    (f : List Char → List Char → List Char) (h : containsTag tags t = true) :
    (LiquidTags.register t f tags).2 = true ∧
      lookupTag (LiquidTags.register t f tags).1 t = some f := by
  refine ⟨h, ?_⟩
  simp [LiquidTags.register, lookupTag]

/-- C6 witness. -/
theorem register_warns_and_overwrites_witness :
    containsTag [("t".data, handlerA)] "t".data = true ∧
      ((LiquidTags.register "t".data handlerB [("t".data, handlerA)]).2 = true ∧
        lookupTag (LiquidTags.register "t".data handlerB
          [("t".data, handlerA)]).1 "t".data = some handlerB) :=
  ⟨rfl, register_warns_and_overwrites [("t".data, handlerA)] "t".data handlerB rfl⟩

/-- C7: the notebook handler's cell-range parsing — `cells[2:5]` gives
start 2 and end 5; `cells[:5]` gives start 0 and end 5; `cells[2:]` gives
start 2 and unbounded end; an absent clause gives start 0 and unbounded
end; negative bounds are preserved verbatim as signed integers. -/
theorem notebook_cell_range_parsing :
    notebookArgs "nb.ipynb cells[2:5]".data =
      .ok ("nb.ipynb".data, 2, some 5, none) ∧
    notebookArgs "nb.ipynb cells[:5]".data =
      .ok ("nb.ipynb".data, 0, some 5, none) ∧
    notebookArgs "nb.ipynb cells[2:]".data =
      .ok ("nb.ipynb".data, 2, none, none) ∧
    notebookArgs "nb.ipynb".data =
      .ok ("nb.ipynb".data, 0, none, none) ∧
    notebookArgs "nb.ipynb cells[-3:-1]".data =
      .ok ("nb.ipynb".data, -3, some (-1), none) := by
  refine ⟨?_, ?_, ?_, ?_, ?_⟩ <;> rfl

/-- C8: when the argument text does not match the mini-grammar
`path [cells[start:end]] [language[lang]]`, the handler fails with the
malformed-syntax error whose message carries the expected-usage string,
and the collaborators are never consulted: the result is identical for
any two collaborator bundles. -/
theorem notebook_malformed_syntax (c1 c2 : NbCollab) (nbDir markup : List Char)
    (h : parseFormat markup = none) :
    notebook c1 nbDir markup =
      .error (.malformedSyntax ("Error processing input, expected syntax: ".data
        ++ expectedUsage)) ∧
      notebook c1 nbDir markup = notebook c2 nbDir markup := by
  have hargs : notebookArgs markup = .error (.malformedSyntax usageErrMsg) := by
    simp only [notebookArgs, h]
  constructor
  · simp only [notebook, hargs]
    rfl
  · simp only [notebook, hargs]

/-- C8 witness. -/
theorem notebook_malformed_syntax_witness :
    parseFormat [] = none ∧
      (notebook collabA "notebooks".data [] =
        .error (.malformedSyntax ("Error processing input, expected syntax: ".data
          ++ expectedUsage)) ∧
        notebook collabA "notebooks".data [] =
          notebook collabB "notebooks".data []) :=
  ⟨rfl, notebook_malformed_syntax collabA collabB "notebooks".data [] rfl⟩

/-- C9: the CSS compilation step invokes `lessc - --clean-css` first and
invokes `lessc -` exactly when the first exit code is non-zero (first
conjunct); a failing first attempt followed by a zero-exit, non-empty
retry yields the retry's output with no error (second conjunct); and the
step fails exactly when the last attempt exited non-zero or its stdout is
empty (third conjunct). -/
theorem css_retry_policy (lessc : List String → List Char → Int × List Char)
    (input : List Char) :
    ((compileLess lessc input).1 =
      if (lessc lessArgsFull input).1 ≠ 0 then [lessArgsFull, lessArgsShort]
      else [lessArgsFull]) ∧
    ((lessc lessArgsFull input).1 ≠ 0 → (lessc lessArgsShort input).1 = 0 →
      (lessc lessArgsShort input).2 ≠ [] →
      cssCompile lessc input = .ok (lessc lessArgsShort input).2) ∧
    (cssCompile lessc input = .error () ↔
      ((compileLess lessc input).2.1 ≠ 0 ∨ (compileLess lessc input).2.2 = [])) := by
  refine ⟨?_, ?_, ?_⟩
  · by_cases hc : (lessc lessArgsFull input).1 ≠ 0 <;>
      simp [compileLess, hc]
  · intro h1 h2 h3
    simp [cssCompile, compileLess, h1, h2, h3]
  · by_cases hc : ((compileLess lessc input).2.1 ≠ 0 ∨
        (compileLess lessc input).2.2 = []) <;>
      simp [cssCompile, hc]

/-- C9 witness. -/
theorem css_retry_policy_witness :
    (lessc0 lessArgsFull "x".data).1 ≠ 0 ∧
      (lessc0 lessArgsShort "x".data).1 = 0 ∧
      (lessc0 lessArgsShort "x".data).2 ≠ [] ∧
      cssCompile lessc0 "x".data = .ok (lessc0 lessArgsShort "x".data).2 :=
  ⟨by decide, by decide, by decide,
    (css_retry_policy lessc0 "x".data).2.1 (by decide) (by decide) (by decide)⟩

/-- C10: `SubCell.preprocess` returns the resources argument unmodified
and does not mutate the input notebook (it slices a deep copy): the input
reference still holds its original cells afterwards, while the returned
fresh reference holds exactly the `[start:end]` slice of the original
cells. -/
theorem subcell_preprocess_frame {α ρ : Type} (start stop : Option Int)
    (st : Store α) (nb : Nat) (res : ρ) (h : nb < st.length) :
    ((SubCell.preprocess start stop st nb res).1.1.getD nb [] = st.getD nb []) ∧
    ((SubCell.preprocess start stop st nb res).2 = res) ∧
    ((SubCell.preprocess start stop st nb res).1.1.getD
        (SubCell.preprocess start stop st nb res).1.2 []
      = pySlice start stop (st.getD nb [])) := by
  refine ⟨?_, rfl, ?_⟩
  · have hne : List.length st ≠ nb := (Nat.ne_of_lt h).symm
    simp only [SubCell.preprocess, deepcopy, List.getD]
    rw [List.get?_set_ne _ _ hne, List.get?_append h]
  · have hlt : st.length < (st ++ [(st.get? nb).getD []]).length := by
      simp
    simp only [SubCell.preprocess, deepcopy, List.getD]
    rw [List.get?_set_eq_of_lt _ hlt, List.get?_concat_length]
    rfl

/-- C10 witness. -/
theorem subcell_preprocess_frame_witness :
    0 < ([[1, 2, 3, 4]] : Store Nat).length ∧
      (((SubCell.preprocess (some 1) (some 3) ([[1, 2, 3, 4]] : Store Nat)
          0 (42 : Nat)).1.1.getD 0 [] =
        ([[1, 2, 3, 4]] : Store Nat).getD 0 []) ∧
      ((SubCell.preprocess (some 1) (some 3) ([[1, 2, 3, 4]] : Store Nat)
          0 (42 : Nat)).2 = 42) ∧
      ((SubCell.preprocess (some 1) (some 3) ([[1, 2, 3, 4]] : Store Nat)
          0 (42 : Nat)).1.1.getD
        (SubCell.preprocess (some 1) (some 3) ([[1, 2, 3, 4]] : Store Nat)
          0 (42 : Nat)).1.2 []
        = pySlice (some 1) (some 3) (([[1, 2, 3, 4]] : Store Nat).getD 0 []))) :=
  ⟨by decide,
    subcell_preprocess_frame (some 1) (some 3) [[1, 2, 3, 4]] 0 42 (by decide)⟩
